import Mathlib

/-!
Shallow embedding of the detector post-processing pipeline of
`src/retinaface.ts`, `src/embedding.ts` and `src/utils/nmsUtils.ts` from
szeyu/aws-rekognition-clone, together with proofs about it.

Modelling conventions, used throughout:
* JavaScript numbers are modelled as exact rationals (`ℚ`).
* `Array.prototype.sort` (stable since ES2019) is modelled by a stable
  insertion sort `sortByLe`.
* An out-of-range JS array read yields `undefined`; it is modelled by
  `List.getD _ _ 0` (the claims settled here depend on lengths and control
  flow, not on the poisoned values).
* `Math.exp` and `Math.sqrt` are abstracted as function parameters; every
  theorem that depends on their values only uses `exp 0 = 1` or `sqrt 0 = 0`,
  which hold exactly for the JS functions.
* `Math.round` (half toward +∞) coincides with Mathlib's `round`.
-/

namespace AwsRekClone

/-- Stable sort modelling `Array.prototype.sort`: insert `x` in front of the
first element `y` with `le x y = true`, so ties keep input order. -/
def insertLe {α : Type} (le : α → α → Bool) (x : α) : List α → List α
  | [] => [x]
  | y :: ys => if le x y then x :: y :: ys else y :: insertLe le x ys

def sortByLe {α : Type} (le : α → α → Bool) : List α → List α
  | [] => []
  | x :: xs => insertLe le x (sortByLe le xs)

/-- Detector configuration record (retinaface.ts lines 4-21). -/
structure RetinaConfig where
  min_sizes : List (List ℚ)
  steps : List ℚ
  variance : List ℚ
  image_size : ℚ

def cfg_mnet : RetinaConfig :=
  { min_sizes := [[16, 32], [64, 128], [256, 512]], steps := [8, 16, 32]
    variance := [0.1, 0.2], image_size := 640 }

def cfg_re50 : RetinaConfig :=
  { min_sizes := [[16, 32], [64, 128], [256, 512]], steps := [8, 16, 32]
    variance := [0.1, 0.2], image_size := 840 }

/-- `CONFIDENCE_THRESHOLD` (retinaface.ts line 24). -/
def CONFIDENCE_THRESHOLD : ℚ := 0.02

/-- `TOP_K` (line 25). -/
def TOP_K : ℕ := 5000

/-- `NMS_THRESHOLD` (line 26). -/
def NMS_THRESHOLD : ℚ := 0.4

/-- `KEEP_TOP_K` (line 27). -/
def KEEP_TOP_K : ℕ := 750

/-- `VIS_THRESHOLD` (line 28). -/
def VIS_THRESHOLD : ℚ := 0.6

/-- The `PriorBox` class fields (retinaface.ts lines 58-62). -/
structure PriorBox where
  min_sizes : List (List ℚ)
  steps : List ℚ
  image_size : ℚ × ℚ
  feature_maps : List (ℕ × ℕ)

/-- `new PriorBox(cfg, image_size)` (lines 64-72). `image_size.1` is the slot
that divides row counts and center-y (the height slot for non-square input);
`Math.ceil` of a rational is `Int.ceil`, and a non-positive loop bound runs the
loop zero times, hence `Int.toNat`. -/
def PriorBox.ofConfig (cfg : RetinaConfig) (image_size : ℚ × ℚ) : PriorBox :=
  { min_sizes := cfg.min_sizes
    steps := cfg.steps
    image_size := image_size
    feature_maps := cfg.steps.map fun step =>
      ((⌈image_size.1 / step⌉).toNat, (⌈image_size.2 / step⌉).toNat) }

/-- The flat `anchors` array built by the nested loops of `PriorBox.forward`
(lines 74-92): level `k`, then row `i`, then column `j`, then minimum size;
each innermost iteration pushes `dense_cx, dense_cy, s_kx, s_ky`. -/
def PriorBox.flatAnchors (p : PriorBox) : List ℚ :=
  (List.range p.feature_maps.length).flatMap fun k =>
    (List.range (p.feature_maps.getD k (0, 0)).1).flatMap fun i =>
      (List.range (p.feature_maps.getD k (0, 0)).2).flatMap fun j =>
        (p.min_sizes.getD k []).flatMap fun min_size =>
          [((j : ℚ) + 0.5) * p.steps.getD k 0 / p.image_size.2,
           ((i : ℚ) + 0.5) * p.steps.getD k 0 / p.image_size.1,
           min_size / p.image_size.2,
           min_size / p.image_size.1]

/-- The reshape to `[num_anchors, 4]` (lines 94-99). -/
def chunk4 : List ℚ → List (List ℚ)
  | a :: b :: c :: d :: rest => [a, b, c, d] :: chunk4 rest
  | _ => []

def PriorBox.forward (p : PriorBox) : List (List ℚ) := chunk4 p.flatAnchors

def priorBoxForward (cfg : RetinaConfig) (image_size : ℚ × ℚ) : List (List ℚ) :=
  (PriorBox.ofConfig cfg image_size).forward

/-- Written from the spec wording (§4.1, claim C1), not from the code: for each
feature-map level `k` in config order the grid has `ceil(input_height/stride)`
rows and `ceil(input_width/stride)` columns, and for each cell `(row i, col j)`
in row-major order and each minimum size `s` in configured order one anchor
`((j+0.5)·stride/input_width, (i+0.5)·stride/input_height, s/input_width,
s/input_height)` is emitted, in (level, row, column, size) order. -/
def specAnchorGenerator (cfg : RetinaConfig) (input_width input_height : ℚ) :
    List (List ℚ) :=
  (List.range cfg.steps.length).flatMap fun k =>
    (List.range (⌈input_height / cfg.steps.getD k 0⌉).toNat).flatMap fun i =>
      (List.range (⌈input_width / cfg.steps.getD k 0⌉).toNat).flatMap fun j =>
        (cfg.min_sizes.getD k []).map fun s =>
          [((j : ℚ) + 0.5) * cfg.steps.getD k 0 / input_width,
           ((i : ℚ) + 0.5) * cfg.steps.getD k 0 / input_height,
           s / input_width,
           s / input_height]

/-- `decode(loc, priors, variances)` (retinaface.ts lines 106-131), with
`Math.exp` abstracted as `exp`. -/
def decode (exp : ℚ → ℚ) (loc priors : List (List ℚ)) (variances : List ℚ) :
    List (List ℚ) :=
  (List.range priors.length).map fun i =>
    let prior := priors.getD i []
    let l := loc.getD i []
    let cx := prior.getD 0 0 + l.getD 0 0 * variances.getD 0 0 * prior.getD 2 0
    let cy := prior.getD 1 0 + l.getD 1 0 * variances.getD 0 0 * prior.getD 3 0
    let w := prior.getD 2 0 * exp (l.getD 2 0 * variances.getD 1 0)
    let h := prior.getD 3 0 * exp (l.getD 3 0 * variances.getD 1 0)
    [cx - w / 2, cy - h / 2, cx + w / 2, cy + h / 2]

/-- `decodeLandmarks(pre, priors, variances)` (lines 136-153): five (x, y)
pairs pushed in order. -/
def decodeLandmarks (pre priors : List (List ℚ)) (variances : List ℚ) :
    List (List ℚ) :=
  (List.range priors.length).map fun i =>
    let prior := priors.getD i []
    let p := pre.getD i []
    (List.range 5).flatMap fun j =>
      [prior.getD 0 0 + p.getD (j * 2) 0 * variances.getD 0 0 * prior.getD 2 0,
       prior.getD 1 0 + p.getD (j * 2 + 1) 0 * variances.getD 0 0 * prior.getD 3 0]

/-- Entry `j` of row `i` of the `dets` array handed to `nms`. -/
def detGet (dets : List (List ℚ)) (i j : ℕ) : ℚ := (dets.getD i []).getD j 0

/-- `areas[i] = (x2[i] - x1[i] + 1) * (y2[i] - y1[i] + 1)` (line 165). -/
def detArea (dets : List (List ℚ)) (i : ℕ) : ℚ :=
  (detGet dets i 2 - detGet dets i 0 + 1) * (detGet dets i 3 - detGet dets i 1 + 1)

/-- The overlap `ovr` computed for the pair `(i, j)` (lines 181-189). ℚ-division
is total (`q / 0 = 0`); the degenerate denominator that yields NaN/∞ in JS can
only arise from degenerate boxes and none of the theorems below evaluates it. -/
def detOvr (dets : List (List ℚ)) (i j : ℕ) : ℚ :=
  let xx1 := max (detGet dets i 0) (detGet dets j 0)
  let yy1 := max (detGet dets i 1) (detGet dets j 1)
  let xx2 := min (detGet dets i 2) (detGet dets j 2)
  let yy2 := min (detGet dets i 3) (detGet dets j 3)
  let inter := max 0 (xx2 - xx1 + 1) * max 0 (yy2 - yy1 + 1)
  inter / (detArea dets i + detArea dets j - inter)

/-- Comparator of lines 166-169: `(a, b) => b.score - a.score` puts `a` first
iff `b.score ≤ a.score`, ties keeping input order (stable sort). -/
def scoreDescLe : ℕ × ℚ → ℕ × ℚ → Bool := fun a b => decide (b.2 ≤ a.2)

/-- `order`: indices sorted by score descending (lines 166-169). -/
def nmsOrder (dets : List (List ℚ)) : List ℕ :=
  (sortByLe scoreDescLe ((List.range dets.length).map fun idx =>
    (idx, detGet dets idx 4))).map Prod.fst

/-- The greedy suppression loop (lines 171-195): traverse `rem` (a suffix of
`order`); a selected index `i` marks as suppressed every not-yet-suppressed
`j ≠ i` of `order` whose overlap with `i` exceeds the threshold. -/
def nmsRun (dets : List (List ℚ)) (threshold : ℚ) (order : List ℕ) :
    List ℕ → List ℕ → List ℕ
  | [], _ => []
  | i :: rest, suppressed =>
    if i ∈ suppressed then nmsRun dets threshold order rest suppressed
    else i :: nmsRun dets threshold order rest
        (suppressed ++ order.filter fun j =>
          decide (i ≠ j ∧ j ∉ suppressed ∧ threshold < detOvr dets i j))

/-- `nms(dets, threshold)` (lines 158-198): returns the kept indices. -/
def nms (dets : List (List ℚ)) (threshold : ℚ) : List ℕ :=
  nmsRun dets threshold (nmsOrder dets) (nmsOrder dets) []

/-- Lines 307-313: rebuild `locArray` from the flat `loc` output by blind
positional indexing — no length check is performed anywhere. -/
def toLocArray (loc : List ℚ) (numAnchors : ℕ) : List (List ℚ) :=
  (List.range numAnchors).map fun i =>
    [loc.getD (i * 4) 0, loc.getD (i * 4 + 1) 0,
     loc.getD (i * 4 + 2) 0, loc.getD (i * 4 + 3) 0]

/-- Line 314: rebuild `confArray`. -/
def toConfArray (conf : List ℚ) (numAnchors : ℕ) : List (List ℚ) :=
  (List.range numAnchors).map fun i => [conf.getD (i * 2) 0, conf.getD (i * 2 + 1) 0]

/-- Lines 315-326: rebuild `landmsArray`. -/
def toLandmsArray (landms : List ℚ) (numAnchors : ℕ) : List (List ℚ) :=
  (List.range numAnchors).map fun i =>
    (List.range 10).map fun j => landms.getD (i * 10 + j) 0

/-- Lines 334-340: scale a normalized box by
`[originalWidth, originalHeight, originalWidth, originalHeight]`. -/
def scaleBox (box : List ℚ) (originalWidth originalHeight : ℚ) : List ℚ :=
  [box.getD 0 0 * originalWidth, box.getD 1 0 * originalHeight,
   box.getD 2 0 * originalWidth, box.getD 3 0 * originalHeight]

/-- Lines 342-347: scale a flat landmark row by `scale1`, which alternates
`originalWidth` (even positions) and `originalHeight` (odd positions). -/
def scaleLandmark (landm : List ℚ) (originalWidth originalHeight : ℚ) : List ℚ :=
  (List.range landm.length).map fun i =>
    landm.getD i 0 * (if i % 2 = 0 then originalWidth else originalHeight)

/-- `priors.length` for the fixed square input resolution of the loaded
config (lines 298-302). -/
def numAnchors (cfg : RetinaConfig) : ℕ :=
  (priorBoxForward cfg (cfg.image_size, cfg.image_size)).length

/-- Line 350: `scores = confArray.map(c => c[1])`. -/
def pipelineScores (cfg : RetinaConfig) (conf : List ℚ) : List ℚ :=
  (toConfArray conf (numAnchors cfg)).map fun c => c.getD 1 0

/-- Lines 330-340: decoded then pixel-scaled boxes. -/
def pipelineScaledBoxes (exp : ℚ → ℚ) (cfg : RetinaConfig) (loc : List ℚ)
    (W H : ℚ) : List (List ℚ) :=
  (decode exp (toLocArray loc (numAnchors cfg))
      (priorBoxForward cfg (cfg.image_size, cfg.image_size)) cfg.variance).map
    fun box => scaleBox box W H

/-- Lines 331-347: decoded then pixel-scaled landmarks. -/
def pipelineScaledLandmarks (cfg : RetinaConfig) (landms : List ℚ) (W H : ℚ) :
    List (List ℚ) :=
  (decodeLandmarks (toLandmsArray landms (numAnchors cfg))
      (priorBoxForward cfg (cfg.image_size, cfg.image_size)) cfg.variance).map
    fun landm => scaleLandmark landm W H

/-- Lines 352-358: indices whose score strictly exceeds
`CONFIDENCE_THRESHOLD`. -/
def pipelineIndices (cfg : RetinaConfig) (conf : List ℚ) : List ℕ :=
  (List.range (pipelineScores cfg conf).length).filter fun i =>
    decide (CONFIDENCE_THRESHOLD < (pipelineScores cfg conf).getD i 0)

/-- Line 361. -/
def pipelineFilteredScores (cfg : RetinaConfig) (conf : List ℚ) : List ℚ :=
  (pipelineIndices cfg conf).map fun i => (pipelineScores cfg conf).getD i 0

/-- Line 360. -/
def pipelineFilteredBoxes (exp : ℚ → ℚ) (cfg : RetinaConfig)
    (loc conf : List ℚ) (W H : ℚ) : List (List ℚ) :=
  (pipelineIndices cfg conf).map fun i =>
    (pipelineScaledBoxes exp cfg loc W H).getD i []

/-- Line 362. -/
def pipelineFilteredLandmarks (cfg : RetinaConfig) (conf landms : List ℚ)
    (W H : ℚ) : List (List ℚ) :=
  (pipelineIndices cfg conf).map fun i =>
    (pipelineScaledLandmarks cfg landms W H).getD i []

/-- Lines 364-371: stable sort by score descending, truncate to `TOP_K`. -/
def pipelineTopK (cfg : RetinaConfig) (conf : List ℚ) : List ℕ :=
  ((sortByLe scoreDescLe ((List.range (pipelineFilteredScores cfg conf).length).map
      fun idx => (idx, (pipelineFilteredScores cfg conf).getD idx 0))).map
    Prod.fst).take TOP_K

/-- Line 372. -/
def pipelineBoxes2 (exp : ℚ → ℚ) (cfg : RetinaConfig) (loc conf : List ℚ)
    (W H : ℚ) : List (List ℚ) :=
  (pipelineTopK cfg conf).map fun i =>
    (pipelineFilteredBoxes exp cfg loc conf W H).getD i []

/-- Line 373. -/
def pipelineScores2 (cfg : RetinaConfig) (conf : List ℚ) : List ℚ :=
  (pipelineTopK cfg conf).map fun i => (pipelineFilteredScores cfg conf).getD i 0

/-- Line 374. -/
def pipelineLandmarks2 (cfg : RetinaConfig) (conf landms : List ℚ) (W H : ℚ) :
    List (List ℚ) :=
  (pipelineTopK cfg conf).map fun i =>
    (pipelineFilteredLandmarks cfg conf landms W H).getD i []

/-- Line 377: `dets = filteredBoxes.map((box, i) => [...box, filteredScores[i]])`. -/
def pipelineDets (exp : ℚ → ℚ) (cfg : RetinaConfig) (loc conf : List ℚ)
    (W H : ℚ) : List (List ℚ) :=
  (List.range (pipelineBoxes2 exp cfg loc conf W H).length).map fun i =>
    (pipelineBoxes2 exp cfg loc conf W H).getD i []
      ++ [(pipelineScores2 cfg conf).getD i 0]

/-- Line 380. -/
def pipelineKeep (exp : ℚ → ℚ) (cfg : RetinaConfig) (loc conf : List ℚ)
    (W H : ℚ) : List ℕ :=
  nms (pipelineDets exp cfg loc conf W H) NMS_THRESHOLD

/-- Line 383: `keep.slice(0, KEEP_TOP_K)`. -/
def pipelineFinalKeep (exp : ℚ → ℚ) (cfg : RetinaConfig) (loc conf : List ℚ)
    (W H : ℚ) : List ℕ :=
  (pipelineKeep exp cfg loc conf W H).take KEEP_TOP_K

/-- The `RetinaFaceDetection` record (lines 238-242). -/
structure RetinaFaceDetection where
  bbox : List ℚ
  confidence : ℚ
  landmarks : List (List ℚ)
deriving DecidableEq

/-- Lines 385-407: keep survivors whose confidence is `>= visThreshold` and
assemble the detection records, landmarks grouped into five points. -/
def detectFacesCore (exp : ℚ → ℚ) (cfg : RetinaConfig)
    (loc conf landms : List ℚ) (W H visThreshold : ℚ) :
    List RetinaFaceDetection :=
  (pipelineFinalKeep exp cfg loc conf W H).filterMap fun idx =>
    let confidence := (pipelineScores2 cfg conf).getD idx 0
    if visThreshold ≤ confidence then
      let landm := (pipelineLandmarks2 cfg conf landms W H).getD idx []
      some { bbox := (pipelineBoxes2 exp cfg loc conf W H).getD idx []
             confidence := confidence
             landmarks := [[landm.getD 0 0, landm.getD 1 0],
                           [landm.getD 2 0, landm.getD 3 0],
                           [landm.getD 4 0, landm.getD 5 0],
                           [landm.getD 6 0, landm.getD 7 0],
                           [landm.getD 8 0, landm.getD 9 0]] }
    else none

/-- The `PixelBoundingBox` record of `DetectedFace` (lines 422-427). -/
structure PixelBox where
  Left : ℤ
  Top : ℤ
  Width : ℤ
  Height : ℤ
deriving DecidableEq

/-- The normalized `BoundingBox` record of `DetectedFace` (lines 414-419). -/
structure NormBox where
  Left : ℚ
  Top : ℚ
  Width : ℚ
  Height : ℚ
deriving DecidableEq

/-- A landmark entry of `DetectedFace` (lines 428-434); the source field
`Type` is a reserved word in Lean and is embedded as `Type'`. -/
structure LandmarkOut where
  Type' : String
  X : ℚ
  Y : ℚ
  PixelX : ℤ
  PixelY : ℤ
deriving DecidableEq

/-- The `DetectedFace` record (lines 413-435). -/
structure DetectedFace where
  BoundingBox : NormBox
  Confidence : ℚ
  Area : ℚ
  PixelBoundingBox : PixelBox
  Landmarks : List LandmarkOut
deriving DecidableEq

def landmarkTypes : List String := ["eyeLeft", "eyeRight", "nose", "mouthLeft", "mouthRight"]

/-- `convertRetinaFaceToDetectedFace` (lines 437-472). `Math.round` rounds half
toward +∞, exactly Mathlib's `round`. -/
def convertRetinaFaceToDetectedFace (detection : RetinaFaceDetection)
    (imageWidth imageHeight : ℚ) : DetectedFace :=
  let x1 := detection.bbox.getD 0 0
  let y1 := detection.bbox.getD 1 0
  let x2 := detection.bbox.getD 2 0
  let y2 := detection.bbox.getD 3 0
  let width := x2 - x1
  let height := y2 - y1
  { BoundingBox := ⟨x1 / imageWidth, y1 / imageHeight,
                    width / imageWidth, height / imageHeight⟩
    Confidence := detection.confidence * 100
    Area := width / imageWidth * (height / imageHeight)
    PixelBoundingBox := ⟨round x1, round y1, round width, round height⟩
    Landmarks := (List.range detection.landmarks.length).map fun i =>
      let p := detection.landmarks.getD i []
      { Type' := landmarkTypes.getD i ""
        X := p.getD 0 0 / imageWidth
        Y := p.getD 1 0 / imageHeight
        PixelX := round (p.getD 0 0)
        PixelY := round (p.getD 1 0) } }

/-- Comparator of embedding.ts line 80: `(a, b) => b.Area - a.Area`. -/
def faceAreaLe : DetectedFace → DetectedFace → Bool := fun a b => decide (b.Area ≤ a.Area)

/-- `detectAllFacesWithRetinaFace` (embedding.ts lines 55-83) after inference:
convert each detection with the original (pre-resize) dimensions, then sort by
`Area` descending. -/
def detectAllFacesCore (exp : ℚ → ℚ) (cfg : RetinaConfig)
    (loc conf landms : List ℚ) (originalWidth originalHeight visThreshold : ℚ) :
    List DetectedFace :=
  sortByLe faceAreaLe
    ((detectFacesCore exp cfg loc conf landms originalWidth originalHeight
        visThreshold).map
      fun d => convertRetinaFaceToDetectedFace d originalWidth originalHeight)

/-- The accumulation loop of embedding.ts lines 101-105: all three sums run
over `embedding1.length` (the guard on line 92 makes the lengths equal). -/
def embDot (e1 e2 : List ℚ) : ℚ :=
  ((List.range e1.length).map fun i => e1.getD i 0 * e2.getD i 0).sum

/-- Lines 110-114: sum of squared differences (the Euclidean distance before
the final square root). -/
def embDistSq (e1 e2 : List ℚ) : ℚ :=
  ((List.range e1.length).map fun i =>
    (e1.getD i 0 - e2.getD i 0) * (e1.getD i 0 - e2.getD i 0)).sum

/-- Result record of `compareEmbeddings`; `cosineSimilarity = none` models a
non-finite JS number (NaN/±∞) escaping the unguarded division. -/
structure CompareResult where
  cosineSimilarity : Option ℚ
  euclideanDistance : ℚ
deriving DecidableEq

/-- `compareEmbeddings` (embedding.ts lines 88-121), with `Math.sqrt`
abstracted as `sqrt`. The only guard in the source is the length check; the
cosine division is non-finite in JS exactly when its denominator is 0. -/
def compareEmbeddings (sqrt : ℚ → ℚ) (embedding1 embedding2 : List ℚ) :
    Except String CompareResult :=
  if embedding1.length ≠ embedding2.length then
    .error "Embeddings must have the same dimension"
  else
    let denom := sqrt (embDot embedding1 embedding1) * sqrt (embDot embedding2 embedding2)
    .ok { cosineSimilarity :=
            if denom = 0 then none else some (embDot embedding1 embedding2 / denom)
          euclideanDistance := sqrt (embDistSq embedding1 embedding2) }

/-- Intersection area of nmsUtils.ts lines 10-19. -/
def interArea (box1 box2 : NormBox) : ℚ :=
  let x1 := max box1.Left box2.Left
  let y1 := max box1.Top box2.Top
  let x2 := min (box1.Left + box1.Width) (box2.Left + box2.Width)
  let y2 := min (box1.Top + box1.Height) (box2.Top + box2.Height)
  max 0 (x2 - x1) * max 0 (y2 - y1)

/-- Union area of nmsUtils.ts lines 21-24. -/
def unionArea (box1 box2 : NormBox) : ℚ :=
  box1.Width * box1.Height + box2.Width * box2.Height - interArea box1 box2

/-- A JS division: `none` models the non-finite result produced when the
denominator is 0. -/
def jsDiv (a b : ℚ) : Option ℚ := if b = 0 then none else some (a / b)

/-- `calculateIoU` (nmsUtils.ts lines 6-28): the division happens only under
the guard `unionArea > 0`. -/
def calculateIoU (box1 box2 : NormBox) : Option ℚ :=
  if 0 < unionArea box1 box2 then
    jsDiv (interArea box1 box2) (unionArea box1 box2)
  else some 0

/-- Concrete stand-in for `Math.exp`, used only to instantiate witnesses; it
agrees with `Math.exp` at 0 (`expLin 0 = 1`), the only point at which any
theorem below evaluates the abstracted exponential. -/
def expLin : ℚ → ℚ := fun x => 1 + x

/-- Concrete stand-in for `Math.sqrt`, used only to instantiate witnesses; it
agrees with `Math.sqrt` at 0. -/
def sqrtId : ℚ → ℚ := fun x => x

/-- Minimal synthetic configuration (one level, stride = input size, a single
anchor) for concrete end-to-end pipeline runs. -/
def cfgTiny : RetinaConfig :=
  { min_sizes := [[16]], steps := [640], variance := [0.1, 0.2], image_size := 640 }

/-- Concrete faces used for the multi-face ordering scenario (areas 0.1, 0.3,
0.2 in raw order). -/
def faceOfArea (a : ℚ) : DetectedFace :=
  { BoundingBox := ⟨0, 0, 0, 0⟩, Confidence := 0, Area := a
    PixelBoundingBox := ⟨0, 0, 0, 0⟩, Landmarks := [] }

/-! ### General helper lemmas -/

lemma getD_range_map {β : Type} (f : ℕ → β) (n i : ℕ) (h : i < n) (d : β) :
    ((List.range n).map f).getD i d = f i := by
  rw [List.getD_eq_getElem?_getD, List.getElem?_map, List.getElem?_range h]
  rfl

lemma getD_map_lt {α β : Type} (f : α → β) (l : List α) (i : ℕ)
    (h : i < l.length) (d : β) (d' : α) :
    (l.map f).getD i d = f (l.getD i d') := by
  rw [List.getD_eq_getElem?_getD, List.getElem?_map, List.getElem?_eq_getElem h,
    List.getD_eq_getElem?_getD, List.getElem?_eq_getElem h]
  rfl

lemma sortByLe_insert_length {α : Type} (le : α → α → Bool) (x : α) (l : List α) :
    (insertLe le x l).length = l.length + 1 := by
  induction l with
  | nil => rfl
  | cons y ys ih =>
    by_cases h : le x y = true
    · simp [insertLe, h]
    · simp [insertLe, h, ih]

lemma sortByLe_length {α : Type} (le : α → α → Bool) (l : List α) :
    (sortByLe le l).length = l.length := by
  induction l with
  | nil => rfl
  | cons x xs ih => simp [sortByLe, sortByLe_insert_length, ih]

lemma insertLe_perm {α : Type} (le : α → α → Bool) (x : α) (l : List α) :
    (insertLe le x l).Perm (x :: l) := by
  induction l with
  | nil => exact List.Perm.refl _
  | cons y ys ih =>
    by_cases h : le x y = true
    · simp [insertLe, h]
    · simp only [insertLe, h, if_false]
      exact (ih.cons y).trans (List.Perm.swap x y ys)

lemma sortByLe_perm {α : Type} (le : α → α → Bool) (l : List α) :
    (sortByLe le l).Perm l := by
  induction l with
  | nil => exact List.Perm.refl _
  | cons x xs ih => exact (insertLe_perm le x (sortByLe le xs)).trans (ih.cons x)

lemma insertLe_pairwise {α : Type} (le : α → α → Bool)
    (htrans : ∀ a b c, le a b = true → le b c = true → le a c = true)
    (htotal : ∀ a b, le a b = true ∨ le b a = true)
    (x : α) (l : List α) (hl : l.Pairwise fun a b => le a b = true) :
    (insertLe le x l).Pairwise fun a b => le a b = true := by
  induction l with
  | nil => simp [insertLe]
  | cons y ys ih =>
    rcases List.pairwise_cons.mp hl with ⟨hy, hys⟩
    by_cases h : le x y = true
    · simp only [insertLe, h, if_true]
      refine List.pairwise_cons.mpr ⟨?_, hl⟩
      intro b hb
      rcases List.mem_cons.mp hb with hb | hb
      · subst hb
        exact h
      · exact htrans _ _ _ h (hy b hb)
    · simp only [insertLe, h, if_false]
      refine List.pairwise_cons.mpr ⟨?_, ih hys⟩
      intro b hb
      have hb'' := (insertLe_perm le x ys).mem_iff.mp hb
      rcases List.mem_cons.mp hb'' with hb' | hb'
      · rcases htotal x y with h' | h'
        · exact absurd h' h
        · rw [hb']
          exact h'
      · exact hy b hb'

lemma sortByLe_pairwise {α : Type} (le : α → α → Bool)
    (htrans : ∀ a b c, le a b = true → le b c = true → le a c = true)
    (htotal : ∀ a b, le a b = true ∨ le b a = true)
    (l : List α) :
    (sortByLe le l).Pairwise fun a b => le a b = true := by
  induction l with
  | nil => simp [sortByLe]
  | cons x xs ih => exact insertLe_pairwise le htrans htotal x _ ih

lemma insertLe_of_head {α : Type} (le : α → α → Bool) (x y : α) (l : List α)
    (h : le x y = true) : insertLe le x (y :: l) = x :: y :: l := by
  simp [insertLe, h]

lemma sortByLe_of_pairwise {α : Type} (le : α → α → Bool) (l : List α)
    (hl : l.Pairwise fun a b => le a b = true) : sortByLe le l = l := by
  induction l with
  | nil => rfl
  | cons x xs ih =>
    rcases List.pairwise_cons.mp hl with ⟨hx, hxs⟩
    rw [sortByLe, ih hxs]
    cases xs with
    | nil => rfl
    | cons y ys => exact insertLe_of_head le x y ys (hx y (List.mem_cons_self y ys))

/-! ### Lemmas about `chunk4` -/

lemma chunk4_nil : chunk4 [] = [] := rfl

lemma chunk4_cons4 (a b c d : ℚ) (l : List ℚ) :
    chunk4 (a :: b :: c :: d :: l) = [a, b, c, d] :: chunk4 l := rfl

lemma chunk4_append (l1 l2 : List ℚ) (h : l1.length % 4 = 0) :
    chunk4 (l1 ++ l2) = chunk4 l1 ++ chunk4 l2 := by
  induction l1 using chunk4.induct with
  | case1 a b c d rest ih =>
    have : rest.length % 4 = 0 := by
      simp only [List.length_cons] at h
      omega
    simp [chunk4_cons4, ih this]
  | case2 l hne =>
    match l, h with
    | [], _ => rfl
    | [a], h => simp at h
    | [a, b], h => simp at h
    | [a, b, c], h => simp at h
    | a :: b :: c :: d :: rest, h => exact absurd rfl (hne a b c d rest)

lemma flatMap_length_mod4 {α : Type} (xs : List α) (f : α → List ℚ)
    (h : ∀ a ∈ xs, (f a).length % 4 = 0) : (xs.flatMap f).length % 4 = 0 := by
  induction xs with
  | nil => rfl
  | cons x xs ih =>
    have hx := h x (List.mem_cons_self x xs)
    have hxs := ih fun a ha => h a (List.mem_cons_of_mem x ha)
    simp only [List.flatMap_cons, List.length_append]
    omega

lemma chunk4_flatMap {α : Type} (xs : List α) (f : α → List ℚ)
    (h : ∀ a ∈ xs, (f a).length % 4 = 0) :
    chunk4 (xs.flatMap f) = xs.flatMap fun a => chunk4 (f a) := by
  induction xs with
  | nil => rfl
  | cons x xs ih =>
    simp only [List.flatMap_cons]
    rw [chunk4_append _ _ (h x (List.mem_cons_self x xs)),
      ih fun a ha => h a (List.mem_cons_of_mem x ha)]

lemma chunk4_flatMap_four {α : Type} (xs : List α) (f g h k : α → ℚ) :
    chunk4 (xs.flatMap fun a => [f a, g a, h a, k a])
      = xs.map fun a => [f a, g a, h a, k a] := by
  induction xs with
  | nil => rfl
  | cons x xs ih => simpa [chunk4_cons4] using ih

/-! ### Claim C1: anchor generation order and formulas -/

/-- C1: for every detector configuration and input resolution, the anchor
generator emits anchors in exactly (level, row, column, size) order, the grid
at level k having ceil(input_height/stride) rows and ceil(input_width/stride)
columns, each anchor being ((j+0.5)·stride/input_width,
(i+0.5)·stride/input_height, s/input_width, s/input_height): the code's
`PriorBox.forward` equals the generator transcribed from the spec wording. -/
theorem priorBox_matches_spec (cfg : RetinaConfig) (input_height input_width : ℚ) :
    priorBoxForward cfg (input_height, input_width)
      = specAnchorGenerator cfg input_width input_height := by
  dsimp only [priorBoxForward, PriorBox.forward, PriorBox.flatAnchors,
    PriorBox.ofConfig, specAnchorGenerator]
  rw [List.length_map]
  rw [chunk4_flatMap]
  · apply List.flatMap_congr
    intro k hk
    have hk' : k < cfg.steps.length := List.mem_range.mp hk
    rw [getD_map_lt _ _ _ hk' _ 0]
    rw [chunk4_flatMap]
    · apply List.flatMap_congr
      intro i _
      rw [chunk4_flatMap]
      · apply List.flatMap_congr
        intro j _
        exact chunk4_flatMap_four _ _ _ _ _
      · intro j _
        apply flatMap_length_mod4
        intro s _
        simp
    · intro i _
      apply flatMap_length_mod4
      intro j _
      apply flatMap_length_mod4
      intro s _
      simp
  · intro k _
    apply flatMap_length_mod4
    intro i _
    apply flatMap_length_mod4
    intro j _
    apply flatMap_length_mod4
    intro s _
    simp

/-! ### Claim C7: zero deltas decode to the anchor itself -/

/-- C7: for every anchor, decoding with all-zero location deltas is the
identity: the decoded corner box is exactly the anchor's center ± half its
size, so its center and size equal the anchor's own. Uses only
`exp 0 = 1`, which holds exactly for `Math.exp`. -/
theorem decode_zero_deltas_identity (exp : ℚ → ℚ) (priors : List (List ℚ))
    (variances : List ℚ) (hexp : exp 0 = 1) :
    decode exp (priors.map fun _ => ([0, 0, 0, 0] : List ℚ)) priors variances
      = priors.map fun p =>
          [p.getD 0 0 - p.getD 2 0 / 2, p.getD 1 0 - p.getD 3 0 / 2,
           p.getD 0 0 + p.getD 2 0 / 2, p.getD 1 0 + p.getD 3 0 / 2] := by
  apply List.ext_getElem
  · simp [decode]
  · intro i h1 h2
    have hi : i < priors.length := by simpa [decode] using h1
    simp only [decode, List.getElem_map, List.getElem_range]
    rw [getD_map_lt _ _ _ hi _ []]
    simp [hexp, List.getD_eq_getElem?_getD, List.getElem?_eq_getElem hi]

/-- Witness for C7 at the spec's synthetic anchor: center (0.5, 0.5), size
(0.2, 0.2), zero deltas, variances (0.1, 0.2). -/
theorem decode_zero_deltas_identity_witness :
    decode expLin ([[(1 : ℚ)/2, 1/2, 1/5, 1/5]].map fun _ => ([0, 0, 0, 0] : List ℚ))
        [[(1 : ℚ)/2, 1/2, 1/5, 1/5]] [1/10, 1/5]
      = [[(2 : ℚ)/5, 2/5, 3/5, 3/5]] :=
  (decode_zero_deltas_identity expLin [[(1 : ℚ)/2, 1/2, 1/5, 1/5]] [1/10, 1/5]
      (by norm_num [expLin])).trans (by norm_num)

/-! ### Claim C6: coordinate projection uses the original dimensions -/

/-- C6: the projection multiplies every x-coordinate by the original image
width and every y-coordinate by the original image height (the network input
resolution appears nowhere): the pixel box is the rounding of
(x1·W, y1·H, (x2−x1)·W, (y2−y1)·H); in particular the normalized box
(0.25, 0.25, 0.5, 0.5) on a 1920×1280 image yields (480, 320, 960, 640); and
the landmark scaling multiplies every even (x) coordinate by W and every odd
(y) coordinate by H — spelled out for the 10-coordinate rows the pipeline
produces. -/
theorem projector_scales_by_original_dims :
    (∀ (x1 y1 x2 y2 W H conf : ℚ) (lms : List (List ℚ)),
        (convertRetinaFaceToDetectedFace ⟨scaleBox [x1, y1, x2, y2] W H, conf, lms⟩
            W H).PixelBoundingBox
          = ⟨round (x1 * W), round (y1 * H),
             round ((x2 - x1) * W), round ((y2 - y1) * H)⟩)
    ∧ (convertRetinaFaceToDetectedFace
          ⟨scaleBox [1/4, 1/4, 3/4, 3/4] 1920 1280, 1, []⟩ 1920 1280).PixelBoundingBox
        = ⟨480, 320, 960, 640⟩
    ∧ (∀ (v : List ℚ) (W H : ℚ) (i : ℕ),
        (scaleLandmark v W H).getD i 0
          = v.getD i 0 * (if i % 2 = 0 then W else H))
    ∧ (∀ (x0 y0 x1 y1 x2 y2 x3 y3 x4 y4 W H : ℚ),
        scaleLandmark [x0, y0, x1, y1, x2, y2, x3, y3, x4, y4] W H
          = [x0 * W, y0 * H, x1 * W, y1 * H, x2 * W, y2 * H,
             x3 * W, y3 * H, x4 * W, y4 * H]) := by
  refine ⟨?_, ?_, ?_, ?_⟩
  · intro x1 y1 x2 y2 W H conf lms
    simp only [convertRetinaFaceToDetectedFace, scaleBox, List.getD_cons_zero,
      List.getD_cons_succ]
    have e1 : x2 * W - x1 * W = (x2 - x1) * W := by ring
    have e2 : y2 * H - y1 * H = (y2 - y1) * H := by ring
    rw [e1, e2]
  · simp only [convertRetinaFaceToDetectedFace, scaleBox, List.getD_cons_zero,
      List.getD_cons_succ]
    norm_num [round_eq]
  · intro v W H i
    by_cases h : i < v.length
    · rw [scaleLandmark, getD_range_map _ _ _ h]
    · push_neg at h
      rw [scaleLandmark, List.getD_eq_default _ _ (by simpa using h),
        List.getD_eq_default v 0 h, zero_mul]
  · intro x0 y0 x1 y1 x2 y2 x3 y3 x4 y4 W H
    norm_num [scaleLandmark, List.range_succ]

/-! ### Claim C2: no ShapeMismatch check exists in the decode step -/

lemma getD_take_of_lt (l : List ℚ) (n i : ℕ) (h : i < n) :
    (l.take n).getD i 0 = l.getD i 0 := by
  rw [List.getD_eq_getElem?_getD, List.getD_eq_getElem?_getD,
    List.getElem?_take_of_lt h]

/-- C2 (amended): the decode step performs no shape validation at all: for raw
location and landmark arrays of any length, exactly the positions
`0 .. 4·N − 1` (locations) and `0 .. 10·N − 1` (landmarks) are read (excess
entries are silently ignored — truncation) and the outputs always have one row
per anchor (missing entries are read as `undefined`/default — padding); no
error is ever raised. -/
theorem decode_shape_unchecked (exp : ℚ → ℚ) (loc landms : List ℚ)
    (priors : List (List ℚ)) (variances : List ℚ) :
    (decode exp (toLocArray loc priors.length) priors variances).length = priors.length
    ∧ (toLocArray loc priors.length).length = priors.length
    ∧ toLocArray loc priors.length
        = toLocArray (loc.take (4 * priors.length)) priors.length
    ∧ (decodeLandmarks (toLandmsArray landms priors.length) priors variances).length
        = priors.length
    ∧ (toLandmsArray landms priors.length).length = priors.length
    ∧ toLandmsArray landms priors.length
        = toLandmsArray (landms.take (10 * priors.length)) priors.length := by
  refine ⟨by simp [decode], by simp [toLocArray], ?_,
    by simp [decodeLandmarks], by simp [toLandmsArray], ?_⟩
  · unfold toLocArray
    apply List.map_congr_left
    intro i hi
    have hi' : i < priors.length := List.mem_range.mp hi
    rw [getD_take_of_lt loc _ _ (by omega), getD_take_of_lt loc _ _ (by omega),
      getD_take_of_lt loc _ _ (by omega), getD_take_of_lt loc _ _ (by omega)]
  · unfold toLandmsArray
    apply List.map_congr_left
    intro i hi
    have hi' : i < priors.length := List.mem_range.mp hi
    apply List.map_congr_left
    intro j hj
    have hj' : j < 10 := List.mem_range.mp hj
    exact (getD_take_of_lt landms _ _ (by omega)).symm

/-- Witness for C2 (amended) at a concrete anchor count. -/
theorem decode_shape_unchecked_witness :
    (decode expLin (toLocArray [] 1) [[(1 : ℚ)/2, 1/2, 1/40, 1/40]] [1/10, 1/5]).length = 1
    ∧ (toLocArray [] 1).length = 1
    ∧ toLocArray [] 1 = toLocArray (List.take (4 * 1) []) 1
    ∧ (decodeLandmarks (toLandmsArray [1, 2] 1) [[(1 : ℚ)/2, 1/2, 1/40, 1/40]]
        [1/10, 1/5]).length = 1
    ∧ (toLandmsArray [1, 2] 1).length = 1
    ∧ toLandmsArray [1, 2] 1 = toLandmsArray (List.take (10 * 1) [1, 2]) 1 := by
  have h := decode_shape_unchecked expLin [] [1, 2]
    [[(1 : ℚ)/2, 1/2, 1/40, 1/40]] [1/10, 1/5]
  simpa using h

/-- C2 counterexample: the claim demands a ShapeMismatch failure whenever the
raw array lengths disagree with the anchor count, but the code has no failure
path: with one anchor, a raw location array of length 0 (≠ 4) is padded to one
all-default row and one of length 8 (≠ 4) is truncated to its first four
entries; a raw landmark array of length 0 (≠ 10) is padded and one of length
12 (≠ 10) is truncated to its first ten entries; and the full pipeline still
returns a normal (non-error) detection list of length 1 when handed empty
`loc` and `landms` arrays. -/
theorem decode_shape_counterexample :
    toLocArray [] 1 = [[0, 0, 0, 0]]
    ∧ toLocArray [1, 2, 3, 4, 5, 6, 7, 8] 1 = [[1, 2, 3, 4]]
    ∧ toLandmsArray [] 1 = [[0, 0, 0, 0, 0, 0, 0, 0, 0, 0]]
    ∧ toLandmsArray [1, 2, 3, 4, 5, 6, 7, 8, 9, 10, 11, 12] 1
        = [[1, 2, 3, 4, 5, 6, 7, 8, 9, 10]]
    ∧ (detectFacesCore expLin cfgTiny [] [1/10, 9/10] [] 100 100 (6/10)).length = 1 := by
  refine ⟨by norm_num [toLocArray, List.range_succ],
    by norm_num [toLocArray, List.range_succ],
    by norm_num [toLandmsArray, List.range_succ],
    by norm_num [toLandmsArray, List.range_succ], ?_⟩
  norm_num [detectFacesCore, pipelineFinalKeep, pipelineKeep, pipelineDets, pipelineBoxes2,
    pipelineScores2, pipelineLandmarks2, pipelineTopK, pipelineFilteredScores,
    pipelineFilteredBoxes, pipelineFilteredLandmarks, pipelineIndices, pipelineScores,
    pipelineScaledBoxes, pipelineScaledLandmarks, numAnchors, priorBoxForward,
    PriorBox.ofConfig, PriorBox.flatAnchors, PriorBox.forward, chunk4, toLocArray,
    toConfArray, toLandmsArray, decode, decodeLandmarks, scaleBox, scaleLandmark,
    nms, nmsOrder, nmsRun, sortByLe, insertLe, scoreDescLe, detGet, detOvr, detArea,
    cfgTiny, expLin, CONFIDENCE_THRESHOLD, TOP_K, NMS_THRESHOLD, KEEP_TOP_K,
    List.range_succ, List.filter, List.filterMap]

/-! ### Claim C3: pixel boxes are rounded but not clamped -/

/-- C3 (amended): the pixel bounding box fields are integers obtained by
rounding the (unclamped) pixel coordinates. For a detection whose pixel box
already lies inside the image, left and top are nonnegative, but because left
and width are rounded independently, `left + width` (resp. `top + height`) is
only bounded by the image dimension plus one; nothing is clamped, and boxes
extending outside the image keep their out-of-range coordinates. -/
theorem convert_pixelBox_rounded_bounds (d : RetinaFaceDetection) (W H : ℕ)
    (h0x : 0 ≤ d.bbox.getD 0 0) (hx : d.bbox.getD 0 0 ≤ d.bbox.getD 2 0)
    (hxW : d.bbox.getD 2 0 ≤ (W : ℚ))
    (h0y : 0 ≤ d.bbox.getD 1 0) (hy : d.bbox.getD 1 0 ≤ d.bbox.getD 3 0)
    (hyH : d.bbox.getD 3 0 ≤ (H : ℚ)) :
    0 ≤ (convertRetinaFaceToDetectedFace d W H).PixelBoundingBox.Left
    ∧ 0 ≤ (convertRetinaFaceToDetectedFace d W H).PixelBoundingBox.Top
    ∧ (convertRetinaFaceToDetectedFace d W H).PixelBoundingBox.Left
        + (convertRetinaFaceToDetectedFace d W H).PixelBoundingBox.Width ≤ (W : ℤ) + 1
    ∧ (convertRetinaFaceToDetectedFace d W H).PixelBoundingBox.Top
        + (convertRetinaFaceToDetectedFace d W H).PixelBoundingBox.Height ≤ (H : ℤ) + 1 := by
  dsimp only [convertRetinaFaceToDetectedFace]
  rw [round_eq, round_eq, round_eq, round_eq]
  refine ⟨?_, ?_, ?_, ?_⟩
  · exact Int.le_floor.mpr (by push_cast; linarith)
  · exact Int.le_floor.mpr (by push_cast; linarith)
  · have f1 := Int.floor_le (d.bbox.getD 0 0 + 1 / 2)
    have f2 := Int.floor_le (d.bbox.getD 2 0 - d.bbox.getD 0 0 + 1 / 2)
    have hc : ((⌊d.bbox.getD 0 0 + 1 / 2⌋
        + ⌊d.bbox.getD 2 0 - d.bbox.getD 0 0 + 1 / 2⌋ : ℤ) : ℚ) ≤ ((W : ℤ) : ℚ) + 1 := by
      push_cast
      linarith
    exact_mod_cast hc
  · have f1 := Int.floor_le (d.bbox.getD 1 0 + 1 / 2)
    have f2 := Int.floor_le (d.bbox.getD 3 0 - d.bbox.getD 1 0 + 1 / 2)
    have hc : ((⌊d.bbox.getD 1 0 + 1 / 2⌋
        + ⌊d.bbox.getD 3 0 - d.bbox.getD 1 0 + 1 / 2⌋ : ℤ) : ℚ) ≤ ((H : ℤ) : ℚ) + 1 := by
      push_cast
      linarith
    exact_mod_cast hc

/-- Witness for C3 (amended) at a concrete in-bounds detection. -/
theorem convert_pixelBox_rounded_bounds_witness :
    0 ≤ (convertRetinaFaceToDetectedFace ⟨[1/2, 1/2, 7, 9], 1, []⟩ 10 10).PixelBoundingBox.Left
    ∧ 0 ≤ (convertRetinaFaceToDetectedFace ⟨[1/2, 1/2, 7, 9], 1, []⟩ 10 10).PixelBoundingBox.Top
    ∧ (convertRetinaFaceToDetectedFace ⟨[1/2, 1/2, 7, 9], 1, []⟩ 10 10).PixelBoundingBox.Left
        + (convertRetinaFaceToDetectedFace ⟨[1/2, 1/2, 7, 9], 1, []⟩ 10 10).PixelBoundingBox.Width
        ≤ ((10 : ℕ) : ℤ) + 1
    ∧ (convertRetinaFaceToDetectedFace ⟨[1/2, 1/2, 7, 9], 1, []⟩ 10 10).PixelBoundingBox.Top
        + (convertRetinaFaceToDetectedFace ⟨[1/2, 1/2, 7, 9], 1, []⟩ 10 10).PixelBoundingBox.Height
        ≤ ((10 : ℕ) : ℤ) + 1 := by
  have h := convert_pixelBox_rounded_bounds ⟨[1/2, 1/2, 7, 9], 1, []⟩ 10 10
    (by norm_num) (by norm_num) (by norm_num) (by norm_num) (by norm_num) (by norm_num)
  simpa using h

/-- C3 counterexample: the claim's clamping invariant fails on the code.
First conjunct: an end-to-end pipeline run (single-anchor configuration, a
large negative location delta) produces a detection whose pixel `Left` is −14,
violating `0 ≤ left`. Second conjunct: even for a box lying inside a 10×10
image, independent rounding gives `left + width = 11 > 10`, violating
`left + width ≤ image width`. -/
theorem convert_clamp_counterexample :
    ((detectAllFacesCore expLin cfgTiny [-250, 0, 0, 0] [1/10, 9/10]
        [0, 0, 0, 0, 0, 0, 0, 0, 0, 0] 100 100 (6/10)).map
      fun f => f.PixelBoundingBox.Left) = [-14]
    ∧ (convertRetinaFaceToDetectedFace ⟨[1/2, 0, 10, 10], 1, []⟩ 10 10).PixelBoundingBox.Left
        + (convertRetinaFaceToDetectedFace ⟨[1/2, 0, 10, 10], 1, []⟩ 10 10).PixelBoundingBox.Width
        = 11 := by
  constructor
  · norm_num [detectAllFacesCore, detectFacesCore, pipelineFinalKeep, pipelineKeep, pipelineDets,
      pipelineBoxes2, pipelineScores2, pipelineLandmarks2, pipelineTopK, pipelineFilteredScores,
      pipelineFilteredBoxes, pipelineFilteredLandmarks, pipelineIndices, pipelineScores,
      pipelineScaledBoxes, pipelineScaledLandmarks, numAnchors, priorBoxForward,
      PriorBox.ofConfig, PriorBox.flatAnchors, PriorBox.forward, chunk4, toLocArray,
      toConfArray, toLandmsArray, decode, decodeLandmarks, scaleBox, scaleLandmark,
      nms, nmsOrder, nmsRun, sortByLe, insertLe, scoreDescLe, detGet, detOvr, detArea,
      cfgTiny, expLin, CONFIDENCE_THRESHOLD, TOP_K, NMS_THRESHOLD, KEEP_TOP_K,
      convertRetinaFaceToDetectedFace, faceAreaLe, landmarkTypes, round_eq,
      List.range_succ, List.filter, List.filterMap]
  · norm_num [convertRetinaFaceToDetectedFace, round_eq]

/-! ### Claim C5: candidate-count invariants along the pipeline -/

/-- C5: for every input, the candidate count before filtering equals the
anchor count (scores and decoded boxes alike); after the confidence filter
and top-K truncation it is at most `min (anchor count) TOP_K`; after NMS
truncation it is at most `KEEP_TOP_K`; and after the visibility threshold it
is at most the number of NMS survivors. -/
theorem pipeline_count_invariants (exp : ℚ → ℚ) (cfg : RetinaConfig)
    (loc conf landms : List ℚ) (W H visThreshold : ℚ) :
    (pipelineScores cfg conf).length = numAnchors cfg
    ∧ (pipelineScaledBoxes exp cfg loc W H).length = numAnchors cfg
    ∧ (pipelineTopK cfg conf).length ≤ min (numAnchors cfg) TOP_K
    ∧ (pipelineFinalKeep exp cfg loc conf W H).length ≤ KEEP_TOP_K
    ∧ (detectFacesCore exp cfg loc conf landms W H visThreshold).length
        ≤ (pipelineFinalKeep exp cfg loc conf W H).length := by
  refine ⟨by simp [pipelineScores, toConfArray],
    by simp [pipelineScaledBoxes, decode, numAnchors], ?_, ?_, ?_⟩
  · have hidx : (pipelineIndices cfg conf).length ≤ numAnchors cfg := by
      have h := List.length_filter_le
        (fun i => decide (CONFIDENCE_THRESHOLD < (pipelineScores cfg conf).getD i 0))
        (List.range (pipelineScores cfg conf).length)
      simpa [pipelineIndices, pipelineScores, toConfArray] using h
    have hfs : (pipelineFilteredScores cfg conf).length ≤ numAnchors cfg := by
      simpa [pipelineFilteredScores] using hidx
    have hlen : (pipelineTopK cfg conf).length
        = min TOP_K (pipelineFilteredScores cfg conf).length := by
      simp [pipelineTopK, sortByLe_length]
    omega
  · have := List.length_take KEEP_TOP_K (pipelineKeep exp cfg loc conf W H)
    simp only [pipelineFinalKeep]
    omega
  · simpa [detectFacesCore] using
      List.length_filterMap_le _ (pipelineFinalKeep exp cfg loc conf W H)

/-! ### Claim C9: multi-face output is sorted by area descending -/

/-- C9: the list delivered to multi-face callers is the converted detections
sorted by `Area` descending (a permutation of them, pairwise ordered), and on
three faces of areas 0.1, 0.3, 0.2 in raw order the sort returns them in the
order 0.3, 0.2, 0.1. -/
theorem detectAllFaces_sorted_by_area :
    (∀ (exp : ℚ → ℚ) (cfg : RetinaConfig) (loc conf landms : List ℚ) (W H vis : ℚ),
        List.Sorted (fun a b : DetectedFace => b.Area ≤ a.Area)
          (detectAllFacesCore exp cfg loc conf landms W H vis)
        ∧ (detectAllFacesCore exp cfg loc conf landms W H vis).Perm
            ((detectFacesCore exp cfg loc conf landms W H vis).map
              fun d => convertRetinaFaceToDetectedFace d W H))
    ∧ sortByLe faceAreaLe [faceOfArea (1/10), faceOfArea (3/10), faceOfArea (2/10)]
        = [faceOfArea (3/10), faceOfArea (2/10), faceOfArea (1/10)] := by
  constructor
  · intro exp cfg loc conf landms W H vis
    constructor
    · have hp := sortByLe_pairwise faceAreaLe
        (fun a b c hab hbc => by
          simp only [faceAreaLe, decide_eq_true_eq] at *
          linarith)
        (fun a b => by
          simp only [faceAreaLe, decide_eq_true_eq]
          exact le_total b.Area a.Area)
        ((detectFacesCore exp cfg loc conf landms W H vis).map
          fun d => convertRetinaFaceToDetectedFace d W H)
      exact hp.imp fun h => by simpa [faceAreaLe] using h
    · exact sortByLe_perm _ _
  · norm_num [sortByLe, insertLe, faceAreaLe, faceOfArea]

/-! ### Claim C10: calculateIoU is total, guarded, and bounded -/

/-- C10: for boxes with nonnegative widths and heights, `calculateIoU` always
returns a finite value: intersection over union when the union area is
positive (the guard makes the division safe) and 0 otherwise; the value lies
in [0, 1], so no NaN/∞ is ever produced. -/
theorem calculateIoU_total_bounded (box1 box2 : NormBox)
    (hw1 : 0 ≤ box1.Width) (hh1 : 0 ≤ box1.Height)
    (hw2 : 0 ≤ box2.Width) (hh2 : 0 ≤ box2.Height) :
    ∃ q, calculateIoU box1 box2 = some q
      ∧ (0 < unionArea box1 box2 → q = interArea box1 box2 / unionArea box1 box2)
      ∧ (¬ 0 < unionArea box1 box2 → q = 0)
      ∧ 0 ≤ q ∧ q ≤ 1 := by
  have hinter : 0 ≤ interArea box1 box2 :=
    mul_nonneg (le_max_left _ _) (le_max_left _ _)
  by_cases h : 0 < unionArea box1 box2
  · refine ⟨interArea box1 box2 / unionArea box1 box2, ?_, fun _ => rfl,
      fun hc => absurd h hc, div_nonneg hinter h.le, ?_⟩
    · simp [calculateIoU, h, jsDiv, h.ne']
    · rw [div_le_one h]
      have hA1 : interArea box1 box2 ≤ box1.Width * box1.Height := by
        dsimp only [interArea]
        have hx : max 0 (min (box1.Left + box1.Width) (box2.Left + box2.Width)
            - max box1.Left box2.Left) ≤ box1.Width := by
          apply max_le hw1
          have h1 := min_le_left (box1.Left + box1.Width) (box2.Left + box2.Width)
          have h2 := le_max_left box1.Left box2.Left
          linarith
        have hy : max 0 (min (box1.Top + box1.Height) (box2.Top + box2.Height)
            - max box1.Top box2.Top) ≤ box1.Height := by
          apply max_le hh1
          have h1 := min_le_left (box1.Top + box1.Height) (box2.Top + box2.Height)
          have h2 := le_max_left box1.Top box2.Top
          linarith
        exact mul_le_mul hx hy (le_max_left _ _) hw1
      have hA2 : interArea box1 box2 ≤ box2.Width * box2.Height := by
        dsimp only [interArea]
        have hx : max 0 (min (box1.Left + box1.Width) (box2.Left + box2.Width)
            - max box1.Left box2.Left) ≤ box2.Width := by
          apply max_le hw2
          have h1 := min_le_right (box1.Left + box1.Width) (box2.Left + box2.Width)
          have h2 := le_max_right box1.Left box2.Left
          linarith
        have hy : max 0 (min (box1.Top + box1.Height) (box2.Top + box2.Height)
            - max box1.Top box2.Top) ≤ box2.Height := by
          apply max_le hh2
          have h1 := min_le_right (box1.Top + box1.Height) (box2.Top + box2.Height)
          have h2 := le_max_right box1.Top box2.Top
          linarith
        exact mul_le_mul hx hy (le_max_left _ _) hw2
      dsimp only [unionArea] at h ⊢
      linarith
  · exact ⟨0, by simp [calculateIoU, h], fun hc => absurd hc h,
      fun _ => rfl, le_refl 0, by norm_num⟩

/-- Witness for C10 at two identical unit boxes. -/
theorem calculateIoU_total_bounded_witness :
    ∃ q, calculateIoU ⟨0, 0, 1, 1⟩ ⟨0, 0, 1, 1⟩ = some q
      ∧ (0 < unionArea ⟨0, 0, 1, 1⟩ ⟨0, 0, 1, 1⟩
          → q = interArea ⟨0, 0, 1, 1⟩ ⟨0, 0, 1, 1⟩ / unionArea ⟨0, 0, 1, 1⟩ ⟨0, 0, 1, 1⟩)
      ∧ (¬ 0 < unionArea ⟨0, 0, 1, 1⟩ ⟨0, 0, 1, 1⟩ → q = 0)
      ∧ 0 ≤ q ∧ q ≤ 1 :=
  calculateIoU_total_bounded ⟨0, 0, 1, 1⟩ ⟨0, 0, 1, 1⟩
    (by norm_num) (by norm_num) (by norm_num) (by norm_num)

/-! ### Claim C8: zero-norm embeddings are not surfaced as a distinct error -/

/-- C8 (amended): `compareEmbeddings` raises an error only for unequal
lengths; for equal-length inputs where at least one embedding has zero norm it
returns a normal result whose cosine similarity is the non-finite value of the
unguarded division (NaN in JS, modelled as `none`) — no `InvalidEmbedding`
condition exists. Uses only `sqrt 0 = 0`, which holds exactly for
`Math.sqrt`. -/
theorem compareEmbeddings_zero_norm_nan (sqrt : ℚ → ℚ) (e1 e2 : List ℚ)
    (hlen : e1.length = e2.length) (hs : sqrt 0 = 0)
    (hz : embDot e1 e1 = 0 ∨ embDot e2 e2 = 0) :
    compareEmbeddings sqrt e1 e2
      = .ok ⟨none, sqrt (embDistSq e1 e2)⟩ := by
  have hne : ¬ e1.length ≠ e2.length := by omega
  rw [compareEmbeddings, if_neg hne]
  rcases hz with hz | hz <;> simp [hz, hs]

/-- Witness for C8 (amended) at a concrete zero-norm first argument. -/
theorem compareEmbeddings_zero_norm_nan_witness :
    compareEmbeddings sqrtId [0, 0] [1, 2]
      = .ok ⟨none, sqrtId (embDistSq [0, 0] [1, 2])⟩ :=
  compareEmbeddings_zero_norm_nan sqrtId [0, 0] [1, 2] rfl
    (by norm_num [sqrtId]) (Or.inl (by norm_num [embDot, List.range_succ]))

/-- C8 counterexample: the claim demands a distinct `InvalidEmbedding` error
for a zero-norm embedding and a never-NaN similarity, but comparing the
zero-norm `[0, 0]` against `[3, 4]` returns a normal `.ok` result whose
cosine similarity is the non-finite `none` (NaN in JS). -/
theorem compareEmbeddings_zero_norm_counterexample :
    compareEmbeddings sqrtId [0, 0] [3, 4] = .ok ⟨none, 25⟩ := by
  norm_num [compareEmbeddings, embDot, embDistSq, sqrtId, List.range_succ]

/-! ### Claim C4: NMS is idempotent on its own survivors -/

lemma nmsRun_sublist (dets : List (List ℚ)) (thr : ℚ) (order : List ℕ) :
    ∀ rem supp : List ℕ, (nmsRun dets thr order rem supp).Sublist rem := by
  intro rem
  induction rem with
  | nil =>
    intro supp
    simp [nmsRun]
  | cons i rest ih =>
    intro supp
    by_cases h : i ∈ supp
    · simp only [nmsRun, if_pos h]
      exact List.Sublist.cons i (ih supp)
    · simp only [nmsRun, if_neg h]
      exact List.Sublist.cons₂ i (ih _)

lemma nmsRun_mem (dets : List (List ℚ)) (thr : ℚ) (order : List ℕ) :
    ∀ (rem supp : List ℕ) (b : ℕ), b ∈ nmsRun dets thr order rem supp →
      b ∈ rem ∧ b ∉ supp := by
  intro rem
  induction rem with
  | nil =>
    intro supp b hb
    simp [nmsRun] at hb
  | cons i rest ih =>
    intro supp b hb
    by_cases h : i ∈ supp
    · rw [nmsRun, if_pos h] at hb
      rcases ih supp b hb with ⟨h1, h2⟩
      exact ⟨List.mem_cons_of_mem i h1, h2⟩
    · rw [nmsRun, if_neg h] at hb
      rcases List.mem_cons.mp hb with hb | hb
      · exact ⟨by simp [hb], hb ▸ h⟩
      · rcases ih _ b hb with ⟨h1, h2⟩
        refine ⟨List.mem_cons_of_mem i h1, fun hc => h2 ?_⟩
        exact List.mem_append_left _ hc

lemma detOvr_comm (dets : List (List ℚ)) (i j : ℕ) :
    detOvr dets i j = detOvr dets j i := by
  dsimp only [detOvr]
  rw [max_comm (detGet dets i 0), max_comm (detGet dets i 1),
    min_comm (detGet dets i 2), min_comm (detGet dets i 3),
    add_comm (detArea dets i)]

lemma nmsRun_pairwise (dets : List (List ℚ)) (thr : ℚ) (order : List ℕ) :
    ∀ rem supp : List ℕ, rem.Nodup → (∀ x ∈ rem, x ∈ order) →
      (nmsRun dets thr order rem supp).Pairwise fun a b => ¬ thr < detOvr dets a b := by
  intro rem
  induction rem with
  | nil =>
    intro supp _ _
    simp [nmsRun]
  | cons i rest ih =>
    intro supp hnd hsub
    rcases List.nodup_cons.mp hnd with ⟨hi, hnd'⟩
    have hsub' : ∀ x ∈ rest, x ∈ order := fun x hx => hsub x (List.mem_cons_of_mem i hx)
    by_cases h : i ∈ supp
    · rw [nmsRun, if_pos h]
      exact ih supp hnd' hsub'
    · rw [nmsRun, if_neg h]
      refine List.pairwise_cons.mpr ⟨?_, ih _ hnd' hsub'⟩
      intro b hb
      rcases nmsRun_mem dets thr order rest _ b hb with ⟨hbrest, hbsupp⟩
      intro hovr
      apply hbsupp
      apply List.mem_append_right
      apply List.mem_filter.mpr
      refine ⟨hsub' b hbrest, ?_⟩
      rw [decide_eq_true_eq]
      exact ⟨fun he => hi (he ▸ hbrest),
        fun hc => hbsupp (List.mem_append_left _ hc), hovr⟩

lemma nmsRun_all_kept (dets : List (List ℚ)) (thr : ℚ) (order : List ℕ) :
    ∀ rem : List ℕ,
      (∀ i ∈ rem, ∀ j ∈ order, j ≠ i → ¬ thr < detOvr dets i j) →
      nmsRun dets thr order rem [] = rem := by
  intro rem
  induction rem with
  | nil =>
    intro _
    simp [nmsRun]
  | cons i rest ih =>
    intro h
    rw [nmsRun, if_neg (List.not_mem_nil i)]
    have hfil : (order.filter fun j =>
        decide (i ≠ j ∧ j ∉ ([] : List ℕ) ∧ thr < detOvr dets i j)) = [] := by
      rw [List.filter_eq_nil_iff]
      intro j hj
      rw [decide_eq_true_eq]
      rintro ⟨hne, -, hovr⟩
      exact h i (List.mem_cons_self i rest) j hj (Ne.symm hne) hovr
    rw [hfil, List.append_nil]
    exact congrArg (i :: ·) (ih fun a ha => h a (List.mem_cons_of_mem i ha))

lemma nmsOrder_sorted (dets : List (List ℚ)) :
    (nmsOrder dets).Pairwise fun a b => detGet dets b 4 ≤ detGet dets a 4 := by
  have htrans : ∀ a b c : ℕ × ℚ, scoreDescLe a b = true → scoreDescLe b c = true →
      scoreDescLe a c = true := by
    intro a b c hab hbc
    simp only [scoreDescLe, decide_eq_true_eq] at hab hbc ⊢
    linarith
  have htotal : ∀ a b : ℕ × ℚ, scoreDescLe a b = true ∨ scoreDescLe b a = true := by
    intro a b
    simp only [scoreDescLe, decide_eq_true_eq]
    exact le_total b.2 a.2
  have hp := sortByLe_pairwise scoreDescLe htrans htotal
    ((List.range dets.length).map fun idx => (idx, detGet dets idx 4))
  have hmem : ∀ p ∈ sortByLe scoreDescLe
      ((List.range dets.length).map fun idx => (idx, detGet dets idx 4)),
      p.2 = detGet dets p.1 4 := by
    intro p hp'
    have hmem' := (sortByLe_perm scoreDescLe _).mem_iff.mp hp'
    rcases List.mem_map.mp hmem' with ⟨idx, _, rfl⟩
    rfl
  have hp2 : (sortByLe scoreDescLe
      ((List.range dets.length).map fun idx => (idx, detGet dets idx 4))).Pairwise
      fun a b => detGet dets b.1 4 ≤ detGet dets a.1 4 := by
    refine hp.imp_of_mem ?_
    intro a b ha hb hab
    rw [← hmem a ha, ← hmem b hb]
    simpa [scoreDescLe] using hab
  exact List.pairwise_map.mpr hp2

lemma nmsOrder_nodup (dets : List (List ℚ)) : (nmsOrder dets).Nodup := by
  have hnd : ((List.range dets.length).map fun idx => (idx, detGet dets idx 4)).Nodup := by
    refine List.Nodup.map ?_ (List.nodup_range _)
    intro a b hab
    simpa using congrArg Prod.fst hab
  have hnd2 := ((sortByLe_perm scoreDescLe _).nodup_iff).mpr hnd
  refine List.Nodup.map_on ?_ hnd2
  intro x hx y hy hxy
  have hx' := (sortByLe_perm scoreDescLe _).mem_iff.mp hx
  have hy' := (sortByLe_perm scoreDescLe _).mem_iff.mp hy
  rcases List.mem_map.mp hx' with ⟨ix, _, rfl⟩
  rcases List.mem_map.mp hy' with ⟨iy, _, rfl⟩
  simp only at hxy
  simp [hxy]

lemma nmsOrder_mem_lt (dets : List (List ℚ)) (b : ℕ) (hb : b ∈ nmsOrder dets) :
    b < dets.length := by
  rcases List.mem_map.mp hb with ⟨p, hp, rfl⟩
  have hmem' := (sortByLe_perm scoreDescLe _).mem_iff.mp hp
  rcases List.mem_map.mp hmem' with ⟨idx, hidx, rfl⟩
  exact List.mem_range.mp hidx

lemma nms_score_sorted (dets : List (List ℚ)) (thr : ℚ) :
    (nms dets thr).Pairwise fun a b => detGet dets b 4 ≤ detGet dets a 4 :=
  List.Pairwise.sublist (nmsRun_sublist dets thr (nmsOrder dets) (nmsOrder dets) [])
    (nmsOrder_sorted dets)

lemma nms_pairwise_ovr (dets : List (List ℚ)) (thr : ℚ) :
    (nms dets thr).Pairwise fun a b => ¬ thr < detOvr dets a b :=
  nmsRun_pairwise dets thr (nmsOrder dets) (nmsOrder dets) []
    (nmsOrder_nodup dets) (fun _ hx => hx)

lemma pairwise_getD {α : Type} {R : α → α → Prop} {l : List α} (h : l.Pairwise R)
    (d : α) (p q : ℕ) (hp : p < l.length) (hq : q < l.length) (hpq : p < q) :
    R (l.getD p d) (l.getD q d) := by
  rw [List.getD_eq_getElem l d hp, List.getD_eq_getElem l d hq]
  exact List.pairwise_iff_getElem.mp h p q hp hq hpq

lemma detGet_map (dets : List (List ℚ)) (keep : List ℕ) (p : ℕ)
    (hp : p < keep.length) (j : ℕ) :
    detGet (keep.map fun i => dets.getD i []) p j = detGet dets (keep.getD p 0) j := by
  dsimp only [detGet]
  rw [getD_map_lt (fun i => dets.getD i []) keep p hp [] 0]

lemma detOvr_map (dets : List (List ℚ)) (keep : List ℕ) (p q : ℕ)
    (hp : p < keep.length) (hq : q < keep.length) :
    detOvr (keep.map fun i => dets.getD i []) p q
      = detOvr dets (keep.getD p 0) (keep.getD q 0) := by
  dsimp only [detOvr, detArea]
  simp only [detGet_map dets keep p hp, detGet_map dets keep q hq]

lemma map_getD_range {α : Type} (l : List α) (d : α) :
    (List.range l.length).map (fun i => l.getD i d) = l := by
  apply List.ext_getElem
  · simp
  · intro i h1 h2
    simp only [List.getElem_map, List.getElem_range]
    rw [List.getD_eq_getElem l d h2]

/-- C4: running `nms` on the survivors of a previous `nms` run with the same
threshold suppresses nothing: every survivor is kept (the result is the full
index range, in order), so mapping the kept indices back returns exactly the
same list of scored boxes. -/
theorem nms_idempotent (dets : List (List ℚ)) (thr : ℚ) :
    nms ((nms dets thr).map fun i => dets.getD i []) thr
      = List.range ((nms dets thr).map fun i => dets.getD i []).length
    ∧ (nms ((nms dets thr).map fun i => dets.getD i []) thr).map
        (fun p => ((nms dets thr).map fun i => dets.getD i []).getD p [])
      = (nms dets thr).map fun i => dets.getD i [] := by
  set keep := nms dets thr with hkeep
  set survivors := keep.map fun i => dets.getD i [] with hsurv
  have hlen : survivors.length = keep.length := by
    rw [hsurv, List.length_map]
  have hkeepSorted := nms_score_sorted dets thr
  have hpairs2 : ((List.range survivors.length).map fun idx =>
      (idx, detGet survivors idx 4)).Pairwise fun a b => scoreDescLe a b = true := by
    rw [List.pairwise_map]
    refine (List.pairwise_lt_range survivors.length).imp_of_mem ?_
    intro a b ha hb hab
    have ha' : a < keep.length := hlen ▸ List.mem_range.mp ha
    have hb' : b < keep.length := hlen ▸ List.mem_range.mp hb
    simp only [scoreDescLe, decide_eq_true_eq]
    rw [detGet_map dets keep a ha', detGet_map dets keep b hb']
    exact pairwise_getD hkeepSorted 0 a b ha' hb' hab
  have horder2 : nmsOrder survivors = List.range survivors.length := by
    rw [nmsOrder, sortByLe_of_pairwise _ _ hpairs2, List.map_map]
    simp [Function.comp_def]
  have hkeepOvr := nms_pairwise_ovr dets thr
  have hovrpos : ∀ p ∈ List.range survivors.length, ∀ q ∈ List.range survivors.length,
      q ≠ p → ¬ thr < detOvr survivors p q := by
    intro p hp q hq hqp
    have hp' : p < keep.length := hlen ▸ List.mem_range.mp hp
    have hq' : q < keep.length := hlen ▸ List.mem_range.mp hq
    rw [detOvr_map dets keep p q hp' hq']
    rcases Nat.lt_or_ge p q with h | h
    · exact pairwise_getD hkeepOvr 0 p q hp' hq' h
    · have hqp' : q < p := lt_of_le_of_ne h hqp
      rw [detOvr_comm]
      exact pairwise_getD hkeepOvr 0 q p hq' hp' hqp'
  have hrun : nms survivors thr = List.range survivors.length := by
    rw [nms, horder2]
    exact nmsRun_all_kept survivors thr _ _ hovrpos
  exact ⟨hrun, by rw [hrun]; exact map_getD_range survivors []⟩

end AwsRekClone
